import Mathlib

/-!
Shallow embedding of the `rules_server` eligibility engine
(`rules_server/models.py`), together with theorems checking the
natural-language specification against it.

Python dictionaries are modelled as association lists with Python's
insertion-order semantics (`alistSet` overwrites in place, appends new
keys at the end); Python exceptions are modelled with `Except String`;
SQL execution is modelled by an oracle of type `DB` that maps a rendered
statement plus its bound data to either an error (the exception text) or
the fetched row.
-/

namespace WicRules

/-- JSON-like payload values (the applicant payload and reference data). -/
inductive JVal where
  | null
  | bool (b : Bool)
  | num (n : Int)
  | str (s : String)
  | arr (items : List JVal)
  | obj (fields : List (String × JVal))

/-- A Python dict holding payload data: association list, unique keys. -/
abbrev Dict := List (String × JVal)

/-- Dictionary lookup (`d[k]` / `d.get(k)`): first binding of the key. -/
def alistGet {κ α : Type} [BEq κ] (d : List (κ × α)) (k : κ) : Option α :=
  (d.find? (fun kv => kv.1 == k)).map (fun kv => kv.2)

/-- Dictionary store (`d[k] = v`): overwrite in place, else append. -/
def alistSet {κ α : Type} [BEq κ] (d : List (κ × α)) (k : κ) (v : α) :
    List (κ × α) :=
  if (d.find? (fun kv => kv.1 == k)).isSome then
    d.map (fun kv => if kv.1 == k then (k, v) else kv)
  else
    d ++ [(k, v)]

/-- Dictionary removal (`d.pop(k)`, key side): drop the key's binding. -/
def alistRemove {κ α : Type} [BEq κ] (d : List (κ × α)) (k : κ) :
    List (κ × α) :=
  d.filter (fun kv => !(kv.1 == k))

/-- Python `base.update(upd)`: store every binding of `upd` into `base`. -/
def dictUpdate (base upd : Dict) : Dict :=
  upd.foldl (fun d kv => alistSet d kv.1 kv.2) base

/-- A single-quote character, kept out of string literals on purpose. -/
def squote : Char := Char.ofNat 39

/-- Does `big` start with `small`? -/
def charsHasPre : List Char → List Char → Bool
  | [], _ => true
  | _ :: _, [] => false
  | p :: ps, c :: cs => p == c && charsHasPre ps cs

/-- Does `pat` occur somewhere inside the character list? -/
def charsContains (pat : List Char) : List Char → Bool
  | [] => charsHasPre pat []
  | c :: cs => charsHasPre pat (c :: cs) || charsContains pat cs

/-- Substring test on strings. -/
def strContains (s pat : String) : Bool := charsContains pat.data s.data

/-- Python falsiness of a nullable text column (None or empty string). -/
def pyFalsy : Option String → Bool
  | none => true
  | some s => s == ""

/-- Python `str()` of the scalar values bound as source data (the
rendering path stringifies each datum when `%`-formatting).  Containers
never appear as bound data in the modelled source fragments. -/
def pyStr : JVal → String
  | JVal.null => "None"
  | JVal.bool b => if b then "True" else "False"
  | JVal.num n => toString n
  | JVal.str s => s
  | JVal.arr _ => "<list>"
  | JVal.obj _ => "<dict>"

/-- Python `int(x)` on an optional dict access (`int(applicant['id'])`):
a missing key raises, numerals convert, numeric text parses. -/
def pyInt : Option JVal → Except String Int
  | none => Except.error "KeyError: id"
  | some (JVal.num n) => Except.ok n
  | some (JVal.str s) =>
    match s.toInt? with
    | some n => Except.ok n
    | none => Except.error "ValueError: invalid literal for int"
  | some (JVal.bool b) => Except.ok (if b then 1 else 0)
  | some _ => Except.error "TypeError: int argument"

/-- Python `text.replace("%s", "'%s'")`: wrap every placeholder in
single quotes, scanning left to right. -/
def replacePct : List Char → List Char
  | '%' :: 's' :: rest => squote :: '%' :: 's' :: squote :: replacePct rest
  | c :: rest => c :: replacePct rest
  | [] => []

/-- Python `text % args` restricted to `%s` conversions: substitute each
placeholder with the next argument, verbatim; arity mismatches raise. -/
def pyFormatAux : List Char → List String → Except String (List Char)
  | '%' :: 's' :: rest, arg :: args =>
    (pyFormatAux rest args).map (fun r => arg.data ++ r)
  | '%' :: 's' :: _, [] =>
    Except.error "TypeError: not enough arguments for format string"
  | c :: rest, args => (pyFormatAux rest args).map (fun r => c :: r)
  | [], [] => Except.ok []
  | [], _ :: _ =>
    Except.error "TypeError: not all arguments converted during string formatting"

/-- Python `%`-formatting on strings (only `%s` conversions occur). -/
def pyFormat (s : String) (args : List String) : Except String String :=
  (pyFormatAux s.data args).map String.mk

/-- The row fetched for one rule query: `(eligible, explanation,
end_date, normal, description, limitation_explanation)`. -/
structure Row where
  eligible : Bool
  explanation : String
  end_date : Option String
  normal : Option Bool
  description : Option String
  limitation_explanation : Option String

/-- The relational execution oracle: rendered statement and bound data
to either the raised exception's text or the fetched row. -/
abbrev DB := String → List JVal → Except String Row

/-- A limitation record as selected by `Rule._SQL`. -/
structure Limitation where
  end_date : Option String
  normal : Option Bool
  description : Option String
  explanation : Option String

/-- The dict returned by `Rule.calc`. -/
structure RuleResult where
  eligible : Bool
  explanation : String
  limitation : Option Limitation

/-- One entry of a node result's `explanation` list: a rule contributes
its explanation text, a child node contributes its whole (nested) list. -/
inductive Expl where
  | ofRule (e : String)
  | ofNode (es : List Expl)

/-- One entry of a node result's `limitation` list: a rule contributes
its limitation record, a child node its whole (nested) list. -/
inductive Limit where
  | ofRule (l : Limitation)
  | ofNode (ls : List Limit)

mutual

/-- A value of the `subfindings` map: a rule result or a node result. -/
inductive Finding where
  | ofRule (r : RuleResult)
  | ofNode (n : NodeResult)

/-- The dict returned by `Node.calc`: eligibility, the aggregated
explanation and limitation lists, and the per-child `subfindings` map. -/
inductive NodeResult where
  | mk (eligible : Bool) (explanation : List Expl) (limitation : List Limit)
      (subfindings : List (String × Finding))

end

def NodeResult.eligible : NodeResult → Bool
  | NodeResult.mk e _ _ _ => e

def NodeResult.explanation : NodeResult → List Expl
  | NodeResult.mk _ ex _ _ => ex

def NodeResult.limitation : NodeResult → List Limit
  | NodeResult.mk _ _ li _ => li

def NodeResult.subfindings : NodeResult → List (String × Finding)
  | NodeResult.mk _ _ _ sf => sf

/-- `val['eligible']` for a subfindings value (rule or node result). -/
def Finding.eligible : Finding → Bool
  | Finding.ofRule r => r.eligible
  | Finding.ofNode n => n.eligible

/-- A `Rule` row: leaf of the tree, unique by (name, node); `code` is
the rule's query-expression body. -/
structure Rule where
  name : String
  code : String

/-- The tail of `Rule._SQL` after its two placeholders: the select list
reading the composite `result` column. -/
def SQL_SELECT_TAIL : String :=
  ")\n              select (source.result).eligible,\n                     (source.result).explanation,\n                     ((source.result).limitation).end_date,\n                     ((source.result).limitation).normal,\n                     ((source.result).limitation).description,\n                     ((source.result).limitation).explanation AS limitation_explanation\n              from source"

/-- `Rule._SQL % (source_clause, self.code)`: the template's first
placeholder takes the source clause, the second the rule body. -/
def ruleBaseSql (source_clause code : String) : String :=
  "with source as (" ++ source_clause ++ " " ++ code ++ SQL_SELECT_TAIL

/-- `Rule.calc` (models.py lines 185-205): render the statement, execute
it with the source data bound; an execution failure is re-raised as a
`DataError` whose message carries the rule name, the cause and the
statement; otherwise decode the fetched row, collapsing the limitation
to absent when both `end_date` and `description` are falsy. -/
def Rule.calc (db : DB) (r : Rule) (source_clause : String)
    (source_data : List JVal) : Except String RuleResult :=
  let sql := ruleBaseSql source_clause r.code
  match db sql source_data with
  | Except.error exc =>
    Except.error ("Error executing rule " ++ r.name ++ "\n" ++ exc ++
      "\n\n in sql:\n\n" ++ sql)
  | Except.ok findings =>
    let limitation : Limitation :=
      ⟨findings.end_date, findings.normal, findings.description,
        findings.limitation_explanation⟩
    let limitationOpt : Option Limitation :=
      if pyFalsy findings.end_date && pyFalsy findings.description then none
      else some limitation
    Except.ok ⟨findings.eligible, findings.explanation, limitationOpt⟩

/-- `Rule.sql` (models.py lines 207-210): the diagnostics-only rendering;
wrap every remaining `%s` in single quotes, then `%`-substitute the
stringified source data into the statement text. -/
def Rule.sql (r : Rule) (source_clause : String) (source_data : List JVal) :
    Except String String := do
  let result := ruleBaseSql source_clause r.code
  let result := String.mk (replacePct result.data)
  pyFormat result (source_data.map pyStr)

/-- A `Node` row and, recursively, the tree below it: child nodes (rows
whose `parent` is this node) and its own rules. -/
inductive Node where
  | mk (name : String) (requires_all : Bool) (children : List Node)
      (rules : List Rule)

def Node.name : Node → String
  | Node.mk n _ _ _ => n

def Node.requires_all : Node → Bool
  | Node.mk _ ra _ _ => ra

def Node.children : Node → List Node
  | Node.mk _ _ ch _ => ch

def Node.rules : Node → List Rule
  | Node.mk _ _ _ rl => rl

/-- The `for rule in self.rule_set.all()` loop of `Node.calc`: evaluate
the node's own rules in order, pairing each result with the rule name;
the first raised error aborts the loop. -/
def calcRules (db : DB) (sc : String) (sd : List JVal) :
    List Rule → Except String (List (String × RuleResult))
  | [] => Except.ok []
  | r :: rest => do
    let res ← Rule.calc db r sc sd
    let others ← calcRules db sc sd rest
    Except.ok ((r.name, res) :: others)

mutual

/-- `Node.calc` (models.py lines 128-161): evaluate every child node and
every own rule, then aggregate — eligibility starts at `requires_all`
and is AND-ed (`requires_all`) or OR-ed (not) with every child's flag;
every child's explanation is appended; a child's limitation is appended
only when that child is eligible and its limitation is truthy (a node's
limitation list must be non-empty, a rule's must be present); the
`subfindings` dict maps each child's name to its full result. -/
def Node.calc (db : DB) (sc : String) (sd : List JVal) :
    Node → Except String NodeResult
  | Node.mk _name requires_all children rules => do
    let childResults ← Node.calcList db sc sd children
    let ruleResults ← calcRules db sc sd rules
    let elig :=
      ruleResults.foldl
        (fun e p => if requires_all then e && p.2.eligible else e || p.2.eligible)
        (childResults.foldl
          (fun e p => if requires_all then e && p.2.eligible else e || p.2.eligible)
          requires_all)
    let explanation :=
      childResults.map (fun p => Expl.ofNode p.2.explanation) ++
        ruleResults.map (fun p => Expl.ofRule p.2.explanation)
    let limitation :=
      childResults.filterMap
        (fun p =>
          if p.2.eligible && !p.2.limitation.isEmpty then
            some (Limit.ofNode p.2.limitation)
          else none) ++
      ruleResults.filterMap
        (fun p =>
          if p.2.eligible then p.2.limitation.map Limit.ofRule else none)
    let subfindings :=
      (childResults.map (fun p => (p.1, Finding.ofNode p.2)) ++
        ruleResults.map (fun p => (p.1, Finding.ofRule p.2))).foldl
        (fun d kv => alistSet d kv.1 kv.2) []
    Except.ok (NodeResult.mk elig explanation limitation subfindings)

/-- The `for child_node in self.node_set.all()` loop of `Node.calc`:
evaluate the child nodes in order, pairing each result with the child's
name; the first raised error aborts the loop. -/
def Node.calcList (db : DB) (sc : String) (sd : List JVal) :
    List Node → Except String (List (String × NodeResult))
  | [] => Except.ok []
  | n :: ns => do
    let res ← Node.calc db sc sd n
    let others ← Node.calcList db sc sd ns
    Except.ok ((n.name, res) :: others)

end

mutual

/-- All rules in the subtree rooted at a node (its own and, recursively,
its descendants'), in visitation order. -/
def rulesOf : Node → List Rule
  | Node.mk _ _ children rules => rulesOfList children ++ rules

/-- All rules below a list of nodes, in visitation order. -/
def rulesOfList : List Node → List Rule
  | [] => []
  | n :: ns => rulesOf n ++ rulesOfList ns

end

/-- `Node.sql` (models.py lines 124-126): the rendered statement of each
of the node's own rules (children are not visited). -/
def Node.sqlList (n : Node) (sc : String) (sd : List JVal) :
    Except String (List String) :=
  n.rules.mapM (fun r => r.sql sc sd)

/-- A `Ruleset` row: its configured `null_sources` mapping (source name
to fallback definition), the flat field-name-to-type index derived from
its authoritative syntax schema (see `SyntaxSchema.data_types_loop`
below), and its root nodes (`self.node_set`: the nodes whose `ruleset`
foreign key points here, i.e. the parentless roots). -/
structure Ruleset where
  null_sources : List (String × String)
  types : List (String × String)
  roots : List Node

/-- `Ruleset.null_source_sql` (models.py lines 50-53): for every
configured null source whose name is not a key of the record, yield the
fallback fragment `" name as ( select * from definition ) "`. -/
def Ruleset.null_source_sql (rs : Ruleset) (raw : Dict) : List String :=
  rs.null_sources.filterMap (fun kv =>
    if (alistGet raw kv.1).isNone then
      some (" " ++ kv.1 ++ " as ( select * from " ++ kv.2 ++ " ) ")
    else none)

/-- Modelled from the spec: the helper `values_from_json` imported from
`rules_server/utils.py`, a file that is not part of the reviewed source.
Per the spec (section 4.3) it emits, "for each top-level field in the
record that maps to a recognized value-source shape, ... a parameterized
source fragment plus its bound value, typed via `type_index`".  We model
it as one fragment per top-level field that has an entry in the flat
type index; each fragment starts with the source name (the surrounding
code relies on `source_sql.split()[0]` being that name) and carries one
`%s` placeholder whose bound value is the field's value. -/
def values_from_json_util (raw : Dict) (types : List (String × String)) :
    List (String × JVal) :=
  raw.filterMap (fun kv =>
    (alistGet types kv.1).map (fun t =>
      (kv.1 ++ " as ( select cast(%s as " ++ t ++ ") as value )", kv.2)))

/-- `Ruleset.values_from_json` (models.py lines 66-72): unzip the
helper's fragment/value pairs (`zip(*...)` raises a `ValueError` when
the helper yields nothing), append the null-source fallback fragments,
and join everything into one `WITH` clause; the bound data are only the
helper's values. -/
def Ruleset.values_from_json (rs : Ruleset) (raw : Dict) :
    Except String (String × List JVal) :=
  match values_from_json_util raw rs.types with
  | [] => Except.error "ValueError: not enough values to unpack (expected 2, got 0)"
  | pairs =>
    let source_sql := pairs.map (fun p => p.1) ++ rs.null_source_sql raw
    Except.ok ("WITH " ++ String.intercalate ",\n" source_sql,
      pairs.map (fun p => p.2))

/-- `Ruleset.flattened` (models.py lines 43-48): `payload.pop('applicants')`
removes the applicants list from the caller's payload (raising a
`KeyError` when absent); each applicant then yields an independent
record: a deep copy of the popped payload overlaid with the applicant's
own fields.  The second component of the result is the caller's payload
as the call leaves it. -/
def Ruleset.flattened (payload : Dict) : Except String (List Dict × Dict) :=
  match alistGet payload "applicants" with
  | none => Except.error "KeyError: applicants"
  | some v =>
    let payload' := alistRemove payload "applicants"
    match v with
    | JVal.arr items =>
      (items.mapM (fun itm =>
        match itm with
        | JVal.obj fields => Except.ok (dictUpdate payload' fields)
        | _ => Except.error "TypeError: applicant entry is not a mapping")).map
        (fun recs => (recs, payload'))
    | _ => Except.error "TypeError: applicants value is not iterable"

/-- The `for node in self.node_set.filter(parent__isnull=True)` loop of
`Ruleset.calc` (lines 81-85): evaluate each root, store its result under
its name in the requirements dict, and AND its eligibility into the
running flag unless the root is named "categories". -/
def rootsLoop (db : DB) (sc : String) (sd : List JVal) :
    List Node → Bool → List (String × NodeResult) →
    Except String (Bool × List (String × NodeResult))
  | [], elig, reqs => Except.ok (elig, reqs)
  | n :: rest, elig, reqs => do
    let node_result ← Node.calc db sc sd n
    rootsLoop db sc sd rest
      (if n.name != "categories" then elig && node_result.eligible else elig)
      (alistSet reqs n.name node_result)

/-- The `categories` sub-report of one applicant's result. -/
structure Categories where
  applicable : List String
  findings : List (String × Finding)

/-- One applicant's report as assembled by `Ruleset.calc`. -/
structure Report where
  eligible : Bool
  requirements : List (String × NodeResult)
  categories : Categories

/-- The per-applicant body of `Ruleset.calc` (models.py lines 78-100):
compile the sources, evaluate every root node, convert the applicant id
with `int(...)`, then pop the root named "categories" out of the
requirements map and turn its immediate subfindings into the
`categories` sub-report (`applicable` lists the names of the eligible
subfindings, `findings` is the full subfindings map). -/
def Ruleset.calcApplicant (db : DB) (rs : Ruleset) (applicant : Dict) :
    Except String (Int × Report) := do
  let sp ← rs.values_from_json applicant
  let er ← rootsLoop db sp.1 sp.2 rs.roots true []
  let appId ← pyInt (alistGet applicant "id")
  let categories := alistGet er.2 "categories"
  let requirements := (er.2).filter (fun p => p.1 != "categories")
  let subf := match categories with
    | some c => c.subfindings
    | none => []
  let category_names := (subf.filter (fun p => p.2.eligible)).map (fun p => p.1)
  Except.ok (appId, ⟨er.1, requirements, ⟨category_names, subf⟩⟩)

/-- The `for applicant in self.flattened(application)` loop of
`Ruleset.calc`: key each applicant's report by its converted id. -/
def applicantsLoop (db : DB) (rs : Ruleset) :
    List Dict → List (Int × Report) → Except String (List (Int × Report))
  | [], acc => Except.ok acc
  | a :: rest, acc => do
    let res ← Ruleset.calcApplicant db rs a
    applicantsLoop db rs rest (alistSet acc res.1 res.2)

/-- `Ruleset.calc` (models.py lines 74-101).  The second component of
the result is the caller's application payload as the call leaves it
(`flattened` pops its `applicants` key). -/
def Ruleset.calc (db : DB) (rs : Ruleset) (application : Dict) :
    Except String (List (Int × Report) × Dict) := do
  let fl ← Ruleset.flattened application
  let overall ← applicantsLoop db rs fl.1 []
  Except.ok (overall, fl.2)

/-- The per-applicant body of `Ruleset.sql` (models.py lines 105-108):
compile the sources, then render every root node's own rules
(`self.node_set.all()` holds only the roots). -/
def sqlApplicantLoop (rs : Ruleset) : List Dict → Except String (List String)
  | [] => Except.ok []
  | a :: rest => do
    let sp ← rs.values_from_json a
    let stmts ← rs.roots.mapM (fun n => n.sqlList sp.1 sp.2)
    let more ← sqlApplicantLoop rs rest
    Except.ok (stmts.flatten ++ more)

/-- `Ruleset.sql` (models.py lines 103-108).  The second component of
the result is the caller's application payload as the call leaves it. -/
def Ruleset.sql (rs : Ruleset) (application : Dict) :
    Except String (List String × Dict) := do
  let fl ← Ruleset.flattened application
  let stmts ← sqlApplicantLoop rs fl.1
  Except.ok (stmts, fl.2)

/-- A declared JSON-schema property type: a single type name or a union. -/
inductive SchemaType where
  | single (t : String)
  | union (ts : List String)

/-- The parts of one schema property that
`SyntaxSchema._col_data_type` reads: its `format`, its `$ref` and its
declared `type` (possibly absent). -/
structure ColData where
  format : Option String
  ref : Option String
  type : Option SchemaType

/-- `SyntaxSchema._JSONSCHEMA_TO_PG_TYPES` (models.py lines 232-238). -/
def JSONSCHEMA_TO_PG_TYPES : List (String × String) :=
  [("integer", "integer"), ("number", "numeric"), ("string", "text"),
   ("date", "date"), ("boolean", "boolean")]

/-- `SyntaxSchema._col_data_type` (models.py lines 240-253): date-time
format wins, then the exception `$ref`; otherwise take the declared type
(defaulting to "string"-typed "text" when absent), drop "null" from a
union, call a union of more than one remaining type "text", take the
single remaining type otherwise (an empty remainder raises an
`IndexError`), and look the result up in the fixed table (`dict.get`
yields no entry for an unmapped name). -/
def SyntaxSchema.col_data_type (col_data : ColData) :
    Except String (Option String) :=
  if col_data.format == some "date-time" then Except.ok (some "date")
  else if col_data.ref == some "#/definitions/ynexception" then
    Except.ok (some "text")
  else
    match col_data.type with
    | none => Except.ok (alistGet JSONSCHEMA_TO_PG_TYPES "text")
    | some (SchemaType.single dt) => Except.ok (alistGet JSONSCHEMA_TO_PG_TYPES dt)
    | some (SchemaType.union dts) =>
      let dts := dts.filter (fun dt => dt != "null")
      if dts.length > 1 then Except.ok (alistGet JSONSCHEMA_TO_PG_TYPES "text")
      else
        match dts with
        | [] => Except.error "IndexError: list index out of range"
        | dt :: _ => Except.ok (alistGet JSONSCHEMA_TO_PG_TYPES dt)

/-- The accumulation step of `SyntaxSchema.data_types` (models.py lines
255-262) over the properties of one visited schema node: a property
whose resolved type is `none` contributes no entry; any other property
overwrites the entry under its name.  The enclosing `walk` only
sequences several such property dictionaries. -/
def SyntaxSchema.data_types_loop :
    List (String × ColData) → List (String × String) →
    Except String (List (String × String))
  | [], result => Except.ok result
  | (col_name, col_data) :: rest, result => do
    let t ← SyntaxSchema.col_data_type col_data
    match t with
    | some ty => SyntaxSchema.data_types_loop rest (alistSet result col_name ty)
    | none => SyntaxSchema.data_types_loop rest result

/-! ### Helper lemmas -/

theorem foldl_or {α : Type} (f : α → Bool) (l : List α) (a : Bool) :
    l.foldl (fun e x => e || f x) a = (a || l.any f) := by
  induction l generalizing a with
  | nil => rw [List.foldl_nil, List.any_nil, Bool.or_false]
  | cons x t ih => rw [List.foldl_cons, ih, List.any_cons, Bool.or_assoc]

theorem foldl_and {α : Type} (f : α → Bool) (l : List α) (a : Bool) :
    l.foldl (fun e x => e && f x) a = (a && l.all f) := by
  induction l generalizing a with
  | nil => rw [List.foldl_nil, List.all_nil, Bool.and_true]
  | cons x t ih => rw [List.foldl_cons, ih, List.all_cons, Bool.and_assoc]

theorem foldl_combine {α : Type} (ra : Bool) (f : α → Bool) (l : List α)
    (a : Bool) :
    l.foldl (fun e x => if ra then e && f x else e || f x) a
      = if ra then a && l.all f else a || l.any f := by
  cases ra
  · simpa using foldl_or f l a
  · simpa using foldl_and f l a

theorem all_map_self {α : Type} (f : α → Bool) (l : List α) :
    (l.map f).all (fun b => b) = l.all f := by
  induction l with
  | nil => rfl
  | cons x t ih => simp [List.all_cons, ih]

theorem any_map_self {α : Type} (f : α → Bool) (l : List α) :
    (l.map f).any (fun b => b) = l.any f := by
  induction l with
  | nil => rfl
  | cons x t ih => simp [List.any_cons, ih]

theorem node_calc_unfold (db : DB) (sc : String) (sd : List JVal)
    (name : String) (ra : Bool) (ch : List Node) (rl : List Rule) :
    Node.calc db sc sd (Node.mk name ra ch rl) =
      (Node.calcList db sc sd ch).bind (fun childResults =>
      (calcRules db sc sd rl).bind (fun ruleResults =>
      Except.ok (NodeResult.mk
        (ruleResults.foldl
          (fun e p => if ra then e && p.2.eligible else e || p.2.eligible)
          (childResults.foldl
            (fun e p => if ra then e && p.2.eligible else e || p.2.eligible) ra))
        (childResults.map (fun p => Expl.ofNode p.2.explanation) ++
          ruleResults.map (fun p => Expl.ofRule p.2.explanation))
        (childResults.filterMap
          (fun p => if p.2.eligible && !p.2.limitation.isEmpty then
              some (Limit.ofNode p.2.limitation) else none) ++
          ruleResults.filterMap
            (fun p => if p.2.eligible then p.2.limitation.map Limit.ofRule else none))
        ((childResults.map (fun p => (p.1, Finding.ofNode p.2)) ++
          ruleResults.map (fun p => (p.1, Finding.ofRule p.2))).foldl
          (fun d kv => alistSet d kv.1 kv.2) [])))) := rfl

theorem filterMap_guard {α β : Type} (c : α → Bool) (m : α → Option β)
    (l : List α) :
    l.filterMap (fun x => if c x then m x else none)
      = (l.filter c).filterMap m := by
  induction l with
  | nil => rfl
  | cons x t ih =>
    cases h : c x <;>
      simp [List.filterMap_cons, List.filter_cons, h, ih]

theorem if_and_guard {β : Type} (a b : Bool) (x : Option β) :
    (if a && b then x else none) = (if a then (if b then x else none) else none) := by
  cases a <;> cases b <;> simp

theorem filterMap_some_map {α β : Type} (f : α → β) (l : List α) :
    l.filterMap (fun x => some (f x)) = l.map f := by
  induction l with
  | nil => rfl
  | cons x t ih => simp [List.filterMap_cons, ih]

theorem count_eq_one_of_mem_nodup {α : Type} [BEq α] [LawfulBEq α] {a : α}
    {l : List α} (d : l.Nodup) (h : a ∈ l) : l.count a = 1 := by
  induction l with
  | nil => cases h
  | cons x t ih =>
    rw [List.count_cons]
    rcases List.mem_cons.mp h with rfl | hmt
    · rw [List.count_eq_zero.mpr (List.nodup_cons.mp d).1]
      simp
    · have hne : x ≠ a := by
        rintro rfl
        exact (List.nodup_cons.mp d).1 hmt
      rw [ih (List.nodup_cons.mp d).2 hmt, beq_eq_false_iff_ne.mpr hne]
      simp

theorem except_bind_ok {ε α β : Type} (a : α) (f : α → Except ε β) :
    ((Except.ok a : Except ε α) >>= f) = f a := rfl

theorem except_bind_error {ε α β : Type} (e : ε) (f : α → Except ε β) :
    ((Except.error e : Except ε α) >>= f) = (Except.error e : Except ε β) := rfl

theorem except_bindf_ok {ε α β : Type} (a : α) (f : α → Except ε β) :
    (Except.ok a : Except ε α).bind f = f a := rfl

theorem except_bindf_error {ε α β : Type} (e : ε) (f : α → Except ε β) :
    (Except.error e : Except ε α).bind f = (Except.error e : Except ε β) := rfl

theorem except_map_ok {ε α β : Type} (f : α → β) (a : α) :
    (Except.ok a : Except ε α).map f = Except.ok (f a) := rfl

theorem except_map_error {ε α β : Type} (f : α → β) (e : ε) :
    (Except.error e : Except ε α).map f = (Except.error e : Except ε β) := rfl

theorem calcRules_error (db : DB) (sc : String) (sd : List JVal) :
    ∀ (rl : List Rule) (e : String), calcRules db sc sd rl = Except.error e →
      ∃ r, r ∈ rl ∧ Rule.calc db r sc sd = Except.error e := by
  intro rl
  induction rl with
  | nil => intro e h; simp [calcRules] at h
  | cons r rest ih =>
    intro e h
    rw [calcRules] at h
    cases hr : Rule.calc db r sc sd with
    | error e' =>
      rw [hr, except_bind_error] at h
      cases h
      exact ⟨r, List.mem_cons_self r rest, hr⟩
    | ok res =>
      rw [hr, except_bind_ok] at h
      cases hrest : calcRules db sc sd rest with
      | error e' =>
        rw [hrest, except_bind_error] at h
        cases h
        obtain ⟨r', hm, hr'⟩ := ih _ hrest
        exact ⟨r', List.mem_cons_of_mem r hm, hr'⟩
      | ok others =>
        rw [hrest, except_bind_ok] at h
        cases h

theorem calcRules_ok (db : DB) (sc : String) (sd : List JVal) :
    ∀ (rl : List Rule) (rrs : List (String × RuleResult)),
      calcRules db sc sd rl = Except.ok rrs →
      ∀ r, r ∈ rl → ∃ res, Rule.calc db r sc sd = Except.ok res := by
  intro rl
  induction rl with
  | nil => intro rrs _ r hm; cases hm
  | cons r0 rest ih =>
    intro rrs h r hm
    rw [calcRules] at h
    cases hr : Rule.calc db r0 sc sd with
    | error e' => rw [hr, except_bind_error] at h; cases h
    | ok res =>
      rw [hr, except_bind_ok] at h
      cases hrest : calcRules db sc sd rest with
      | error e' => rw [hrest, except_bind_error] at h; cases h
      | ok others =>
        cases hm with
        | head => exact ⟨res, hr⟩
        | tail _ hm' => exact ih others hrest r hm'

mutual

theorem node_calc_error_from_rule (db : DB) (sc : String) (sd : List JVal) :
    ∀ (t : Node) (e : String), Node.calc db sc sd t = Except.error e →
      ∃ r, r ∈ rulesOf t ∧ Rule.calc db r sc sd = Except.error e
  | Node.mk name ra ch rl, e, h => by
    rw [node_calc_unfold] at h
    cases hch : Node.calcList db sc sd ch with
    | error e' =>
      obtain ⟨r, hm, hr⟩ := node_calcList_error_from_rule db sc sd ch e' hch
      rw [hch] at h
      simp only [Except.bind] at h
      cases h
      exact ⟨r, by rw [rulesOf]; exact List.mem_append_left _ hm, hr⟩
    | ok crs =>
      rw [hch] at h
      simp only [Except.bind] at h
      cases hrl : calcRules db sc sd rl with
      | error e' =>
        obtain ⟨r, hm, hr⟩ := calcRules_error db sc sd rl e' hrl
        rw [hrl] at h
        simp only [Except.bind] at h
        cases h
        exact ⟨r, by rw [rulesOf]; exact List.mem_append_right _ hm, hr⟩
      | ok rrs =>
        rw [hrl] at h
        simp only [Except.bind] at h
        cases h

theorem node_calcList_error_from_rule (db : DB) (sc : String) (sd : List JVal) :
    ∀ (ts : List Node) (e : String),
      Node.calcList db sc sd ts = Except.error e →
      ∃ r, r ∈ rulesOfList ts ∧ Rule.calc db r sc sd = Except.error e
  | [], e, h => by rw [Node.calcList] at h; cases h
  | n :: ns, e, h => by
    rw [Node.calcList] at h
    cases hn : Node.calc db sc sd n with
    | error e' =>
      obtain ⟨r, hm, hr⟩ := node_calc_error_from_rule db sc sd n e' hn
      rw [hn, except_bind_error] at h
      cases h
      exact ⟨r, by rw [rulesOfList]; exact List.mem_append_left _ hm, hr⟩
    | ok res =>
      rw [hn, except_bind_ok] at h
      cases hns : Node.calcList db sc sd ns with
      | error e' =>
        obtain ⟨r, hm, hr⟩ := node_calcList_error_from_rule db sc sd ns e' hns
        rw [hns, except_bind_error] at h
        cases h
        exact ⟨r, by rw [rulesOfList]; exact List.mem_append_right _ hm, hr⟩
      | ok others =>
        rw [hns, except_bind_ok] at h
        cases h

end

mutual

theorem node_calc_ok_all_rules (db : DB) (sc : String) (sd : List JVal) :
    ∀ (t : Node) (res : NodeResult), Node.calc db sc sd t = Except.ok res →
      ∀ r, r ∈ rulesOf t → ∃ rr, Rule.calc db r sc sd = Except.ok rr
  | Node.mk name ra ch rl, res, h, r, hm => by
    rw [node_calc_unfold] at h
    cases hch : Node.calcList db sc sd ch with
    | error e' =>
      rw [hch] at h
      simp only [Except.bind] at h
      cases h
    | ok crs =>
      rw [hch] at h
      simp only [Except.bind] at h
      cases hrl : calcRules db sc sd rl with
      | error e' =>
        rw [hrl] at h
        simp only [Except.bind] at h
        cases h
      | ok rrs =>
        rw [rulesOf] at hm
        rcases List.mem_append.mp hm with hml | hmr
        · exact node_calcList_ok_all_rules db sc sd ch crs hch r hml
        · exact calcRules_ok db sc sd rl rrs hrl r hmr

theorem node_calcList_ok_all_rules (db : DB) (sc : String) (sd : List JVal) :
    ∀ (ts : List Node) (ress : List (String × NodeResult)),
      Node.calcList db sc sd ts = Except.ok ress →
      ∀ r, r ∈ rulesOfList ts → ∃ rr, Rule.calc db r sc sd = Except.ok rr
  | [], ress, _, r, hm => by rw [rulesOfList] at hm; cases hm
  | n :: ns, ress, h, r, hm => by
    rw [Node.calcList] at h
    cases hn : Node.calc db sc sd n with
    | error e' => rw [hn, except_bind_error] at h; cases h
    | ok res =>
      rw [hn, except_bind_ok] at h
      cases hns : Node.calcList db sc sd ns with
      | error e' => rw [hns, except_bind_error] at h; cases h
      | ok others =>
        rw [rulesOfList] at hm
        rcases List.mem_append.mp hm with hml | hmr
        · exact node_calc_ok_all_rules db sc sd n res hn r hml
        · exact node_calcList_ok_all_rules db sc sd ns others hns r hmr

end

/-! ### Claims about `Node.calc` aggregation -/

/-- C1: for every node, `Node.calc` returns `eligible` equal to the AND
(when `requires_all` is true) or the OR (when it is false) of the
eligible flags of all direct children — the child node results followed
by the own rule results — and a node with no children and no rules comes
out vacuously eligible exactly when `requires_all` is true. -/
theorem node_calc_and_or_aggregation (db : DB) (sc : String) (sd : List JVal)
    (name : String) (ra : Bool) (ch : List Node) (rl : List Rule) :
    ((Node.calc db sc sd (Node.mk name ra ch rl)).map NodeResult.eligible
      = (Node.calcList db sc sd ch).bind (fun crs =>
          (calcRules db sc sd rl).map (fun rrs =>
            if ra then
              (crs.map (fun p => p.2.eligible) ++
                rrs.map (fun p => p.2.eligible)).all (fun b => b)
            else
              (crs.map (fun p => p.2.eligible) ++
                rrs.map (fun p => p.2.eligible)).any (fun b => b))))
    ∧ (Node.calc db sc sd (Node.mk name ra [] [])).map NodeResult.eligible
        = Except.ok ra := by
  constructor
  · rw [node_calc_unfold]
    cases h1 : Node.calcList db sc sd ch with
    | error e => rfl
    | ok crs =>
      cases h2 : calcRules db sc sd rl with
      | error e => rfl
      | ok rrs =>
        show Except.ok (NodeResult.eligible _) = _
        rw [NodeResult.eligible, foldl_combine, foldl_combine]
        cases ra <;>
          simp [Except.bind, Except.map, List.all_append, List.any_append,
            all_map_self, any_map_self, Bool.and_assoc, Bool.or_assoc]
  · cases ra <;> rfl

/-- C3: for every node, the result's `explanation` list holds every
direct child's explanation in visitation order regardless of that
child's eligibility, while the `limitation` list holds exactly the
limitations of children that are both eligible and carry a non-absent
limitation — equivalently, only the eligible children are consulted at
all — and none of this depends on `requires_all`. -/
theorem node_calc_explanation_limitation (db : DB) (sc : String)
    (sd : List JVal) (name : String) (ra : Bool) (ch : List Node)
    (rl : List Rule) :
    ((Node.calc db sc sd (Node.mk name ra ch rl)).map NodeResult.explanation
      = (Node.calcList db sc sd ch).bind (fun crs =>
          (calcRules db sc sd rl).map (fun rrs =>
            crs.map (fun p => Expl.ofNode p.2.explanation) ++
              rrs.map (fun p => Expl.ofRule p.2.explanation))))
    ∧ ((Node.calc db sc sd (Node.mk name ra ch rl)).map NodeResult.limitation
      = (Node.calcList db sc sd ch).bind (fun crs =>
          (calcRules db sc sd rl).map (fun rrs =>
            crs.filterMap
              (fun p => if p.2.eligible && !p.2.limitation.isEmpty then
                  some (Limit.ofNode p.2.limitation) else none) ++
              rrs.filterMap
                (fun p => if p.2.eligible then p.2.limitation.map Limit.ofRule
                  else none))))
    ∧ ((Node.calc db sc sd (Node.mk name ra ch rl)).map NodeResult.limitation
      = (Node.calcList db sc sd ch).bind (fun crs =>
          (calcRules db sc sd rl).map (fun rrs =>
            (crs.filter (fun p => p.2.eligible)).filterMap
              (fun p => if !p.2.limitation.isEmpty then
                  some (Limit.ofNode p.2.limitation) else none) ++
              (rrs.filter (fun p => p.2.eligible)).filterMap
                (fun p => p.2.limitation.map Limit.ofRule)))) := by
  refine ⟨?_, ?_, ?_⟩
  · rw [node_calc_unfold]
    cases h1 : Node.calcList db sc sd ch with
    | error e => rfl
    | ok crs =>
      cases h2 : calcRules db sc sd rl with
      | error e => rfl
      | ok rrs => rfl
  · rw [node_calc_unfold]
    cases h1 : Node.calcList db sc sd ch with
    | error e => rfl
    | ok crs =>
      cases h2 : calcRules db sc sd rl with
      | error e => rfl
      | ok rrs => rfl
  · rw [node_calc_unfold]
    cases h1 : Node.calcList db sc sd ch with
    | error e => rfl
    | ok crs =>
      cases h2 : calcRules db sc sd rl with
      | error e => rfl
      | ok rrs =>
        show Except.ok (NodeResult.limitation _) = _
        rw [NodeResult.limitation]
        have hch : crs.filterMap
            (fun p => if p.2.eligible && !p.2.limitation.isEmpty then
                some (Limit.ofNode p.2.limitation) else none)
            = (crs.filter (fun p => p.2.eligible)).filterMap
              (fun p => if !p.2.limitation.isEmpty then
                  some (Limit.ofNode p.2.limitation) else none) := by
          rw [← filterMap_guard]
          exact List.filterMap_congr (fun p _ => by
            rw [if_and_guard])
        have hrl : rrs.filterMap
            (fun p => if p.2.eligible then p.2.limitation.map Limit.ofRule
              else none)
            = (rrs.filter (fun p => p.2.eligible)).filterMap
              (fun p => p.2.limitation.map Limit.ofRule) := by
          rw [← filterMap_guard]
        rw [hch, hrl]
        rfl

/-- C4: when a rule's query execution fails, `Rule.calc` raises an error
whose message carries the rule's name, the underlying cause and the
rendered statement, and never returns an eligibility result; `Node.calc`
propagates such errors unmodified through every aggregation level — any
error it returns is exactly some descendant rule's error, and it returns
a result only when every descendant rule returned one (no aggregation
level reinterprets a failure as a boolean outcome). -/
theorem rule_error_propagates_unmodified (db : DB) (sc : String)
    (sd : List JVal) :
    (∀ (r : Rule) (cause : String),
      db (ruleBaseSql sc r.code) sd = Except.error cause →
      Rule.calc db r sc sd = Except.error
        ("Error executing rule " ++ r.name ++ "\n" ++ cause ++
          "\n\n in sql:\n\n" ++ ruleBaseSql sc r.code)
      ∧ ∀ res, Rule.calc db r sc sd ≠ Except.ok res)
    ∧ (∀ (t : Node) (e : String), Node.calc db sc sd t = Except.error e →
        ∃ r, r ∈ rulesOf t ∧ Rule.calc db r sc sd = Except.error e)
    ∧ (∀ (t : Node) (res : NodeResult), Node.calc db sc sd t = Except.ok res →
        ∀ r, r ∈ rulesOf t → ∃ rr, Rule.calc db r sc sd = Except.ok rr) := by
  refine ⟨?_, node_calc_error_from_rule db sc sd, node_calc_ok_all_rules db sc sd⟩
  intro r cause hdb
  have h1 : Rule.calc db r sc sd = Except.error
      ("Error executing rule " ++ r.name ++ "\n" ++ cause ++
        "\n\n in sql:\n\n" ++ ruleBaseSql sc r.code) := by
    simp only [Rule.calc, hdb]
  exact ⟨h1, fun res hok => by rw [h1] at hok; cases hok⟩

/-- C7: for every rule whose query returns a row, the returned
limitation is absent exactly when both the `end_date` and the
`description` columns are empty (SQL null or empty text); when at least
one of the two is non-empty the limitation record — end date, normal
flag, description and explanation — is returned intact, alongside the
row's eligibility flag and explanation. -/
theorem rule_calc_limitation_collapse (db : DB) (r : Rule) (sc : String)
    (sd : List JVal) (row : Row)
    (h : db (ruleBaseSql sc r.code) sd = Except.ok row) :
    ∃ res, Rule.calc db r sc sd = Except.ok res
      ∧ res.eligible = row.eligible
      ∧ res.explanation = row.explanation
      ∧ (res.limitation = none ↔
          (pyFalsy row.end_date = true ∧ pyFalsy row.description = true))
      ∧ (¬(pyFalsy row.end_date = true ∧ pyFalsy row.description = true) →
          res.limitation = some ⟨row.end_date, row.normal, row.description,
            row.limitation_explanation⟩) := by
  have hcalc : Rule.calc db r sc sd = Except.ok
      ⟨row.eligible, row.explanation,
        if pyFalsy row.end_date && pyFalsy row.description then none
        else some ⟨row.end_date, row.normal, row.description,
          row.limitation_explanation⟩⟩ := by
    simp only [Rule.calc, h]
  refine ⟨_, hcalc, rfl, rfl, ?_, ?_⟩
  · cases hc : (pyFalsy row.end_date && pyFalsy row.description) with
    | false =>
      rw [← Bool.and_eq_true, hc]
      simp
    | true =>
      rw [← Bool.and_eq_true, hc]
      simp
  · intro hn
    have hc : (pyFalsy row.end_date && pyFalsy row.description) = false := by
      cases hc : (pyFalsy row.end_date && pyFalsy row.description) with
      | false => rfl
      | true => exact absurd (Bool.and_eq_true _ _ |>.mp hc) hn
    simp [hc]

/-- C5 (code bug witnessed): the resolution priority itself holds —
date-time format yields date (in particular the claim's property
`{"type": ["string", "null"], "format": "date-time"}`), the exception
`$ref` yields text, a declared single (or single-after-dropping-"null")
primitive goes through the fixed table, and an unmapped declared type
gets no index entry — but a union with more than one remaining type does
not resolve to TEXT as the claim states: the code assigns the already
final name "text" and then feeds it back through the
jsonschema-to-postgres table, which has no "text" key, so the lookup
yields nothing and the property is silently dropped from the index. -/
theorem col_data_type_text_entry_dropped :
    (SyntaxSchema.col_data_type
        ⟨some "date-time", none, some (SchemaType.union ["string", "null"])⟩
        = Except.ok (some "date"))
    ∧ (SyntaxSchema.col_data_type ⟨none, some "#/definitions/ynexception", none⟩
        = Except.ok (some "text"))
    ∧ (SyntaxSchema.col_data_type ⟨none, none, some (SchemaType.single "integer")⟩
        = Except.ok (some "integer"))
    ∧ (SyntaxSchema.col_data_type
        ⟨none, none, some (SchemaType.union ["integer", "null"])⟩
        = Except.ok (some "integer"))
    ∧ (SyntaxSchema.col_data_type ⟨none, none, some (SchemaType.single "array")⟩
        = Except.ok none)
    ∧ (SyntaxSchema.col_data_type
        ⟨none, none, some (SchemaType.union ["string", "integer"])⟩
        = Except.ok none)
    ∧ (alistGet JSONSCHEMA_TO_PG_TYPES "text" = none)
    ∧ (SyntaxSchema.data_types_loop
        [("field", ⟨none, none, some (SchemaType.union ["string", "integer"])⟩)] []
        = Except.ok []) :=
  ⟨rfl, rfl, rfl, rfl, rfl, rfl, rfl, rfl⟩

/-- C6: every name configured in `null_sources` that is absent from the
record yields exactly one fallback fragment
`" name as ( select * from definition ) "` (the fragments are exactly
the image of the absent configured pairs); a name present in the record
yields none; and the compiled clause is the `WITH`-joined concatenation
of the record's own fragments followed by the fallback fragments, with
the bound data coming from the record's fragments only. -/
theorem null_sources_fallback (rs : Ruleset) (raw : Dict) (k v : String)
    (hmem : (k, v) ∈ rs.null_sources)
    (hnodup : (rs.null_sources.map Prod.fst).Nodup) :
    (rs.null_source_sql raw
      = (rs.null_sources.filter (fun kv => (alistGet raw kv.1).isNone)).map
          (fun kv => " " ++ kv.1 ++ " as ( select * from " ++ kv.2 ++ " ) "))
    ∧ ((alistGet raw k).isNone = true →
      (rs.null_sources.filter
        (fun kv => (alistGet raw kv.1).isNone)).count (k, v) = 1)
    ∧ ((alistGet raw k).isSome = true →
      (rs.null_sources.filter (fun kv => (alistGet raw kv.1).isNone)).all
        (fun kv => kv.1 != k) = true)
    ∧ (∀ sc sd, rs.values_from_json raw = Except.ok (sc, sd) →
      sc = "WITH " ++ String.intercalate ",\n"
        ((values_from_json_util raw rs.types).map Prod.fst ++
          rs.null_source_sql raw)
      ∧ sd = (values_from_json_util raw rs.types).map Prod.snd) := by
  refine ⟨?_, ?_, ?_, ?_⟩
  · rw [Ruleset.null_source_sql, filterMap_guard, filterMap_some_map]
  · intro habs
    have hnd : rs.null_sources.Nodup := hnodup.of_map
    have hmemf : (k, v) ∈ rs.null_sources.filter
        (fun kv => (alistGet raw kv.1).isNone) :=
      List.mem_filter.mpr ⟨hmem, habs⟩
    exact count_eq_one_of_mem_nodup (hnd.filter _) hmemf
  · intro hpres
    rw [List.all_eq_true]
    intro kv hkv
    obtain ⟨-, habs⟩ := List.mem_filter.mp hkv
    rw [bne_iff_ne]
    intro he
    rw [he] at habs
    rw [Option.isSome_iff_exists] at hpres
    obtain ⟨x, hx⟩ := hpres
    rw [hx] at habs
    cases habs
  · intro sc sd h
    rw [Ruleset.values_from_json] at h
    cases hu : values_from_json_util raw rs.types with
    | nil => rw [hu] at h; cases h
    | cons p rest =>
      rw [hu] at h
      cases h
      exact ⟨rfl, rfl⟩

theorem rootsLoop_eq (db : DB) (sc : String) (sd : List JVal) :
    ∀ (l : List Node) (elig : Bool) (reqs : List (String × NodeResult)),
    rootsLoop db sc sd l elig reqs
      = (Node.calcList db sc sd l).map (fun rres =>
          (rres.foldl
            (fun e p => if p.1 != "categories" then e && p.2.eligible else e)
            elig,
           rres.foldl (fun d p => alistSet d p.1 p.2) reqs)) := by
  intro l
  induction l with
  | nil => intro elig reqs; rfl
  | cons n rest ih =>
    intro elig reqs
    rw [rootsLoop, Node.calcList]
    cases hn : Node.calc db sc sd n with
    | error e => rfl
    | ok res =>
      rw [except_bind_ok, except_bind_ok, ih]
      cases hrest : Node.calcList db sc sd rest with
      | error e => rfl
      | ok others => rfl

theorem foldl_elig_filter (l : List (String × NodeResult)) (a : Bool) :
    l.foldl (fun e p => if p.1 != "categories" then e && p.2.eligible else e) a
      = (a && (l.filter (fun p => p.1 != "categories")).all
          (fun p => p.2.eligible)) := by
  induction l generalizing a with
  | nil => simp
  | cons p rest ih =>
    cases hp : (p.1 != "categories") with
    | false =>
      simp only [List.foldl_cons, List.filter_cons, hp, Bool.false_eq_true,
        if_false, ih]
    | true =>
      simp only [List.foldl_cons, List.filter_cons, hp, if_true, ih,
        List.all_cons, Bool.and_assoc]

theorem alistSet_mem {κ α : Type} [BEq κ] (d : List (κ × α)) (k : κ) (v : α) :
    ∀ p, p ∈ alistSet d k v → p ∈ d ∨ p = (k, v) := by
  intro p hp
  rw [alistSet] at hp
  by_cases hf : (d.find? (fun kv => kv.1 == k)).isSome
  · rw [if_pos hf] at hp
    obtain ⟨kv, hkv, heq⟩ := List.mem_map.mp hp
    by_cases hk : (kv.1 == k) = true
    · right
      rw [if_pos hk] at heq
      exact heq.symm
    · left
      rw [if_neg hk] at heq
      rw [← heq]
      exact hkv
  · rw [if_neg hf] at hp
    rcases List.mem_append.mp hp with h | h
    · exact Or.inl h
    · exact Or.inr (List.mem_singleton.mp h)

theorem applicantsLoop_mem (db : DB) (rs : Ruleset) :
    ∀ (l : List Dict) (acc out : List (Int × Report)),
      applicantsLoop db rs l acc = Except.ok out →
      ∀ p, p ∈ out →
        p ∈ acc ∨ ∃ rec, rec ∈ l ∧ Ruleset.calcApplicant db rs rec = Except.ok p := by
  intro l
  induction l with
  | nil =>
    intro acc out h p hp
    rw [applicantsLoop] at h
    cases h
    exact Or.inl hp
  | cons a rest ih =>
    intro acc out h p hp
    rw [applicantsLoop] at h
    cases ha : Ruleset.calcApplicant db rs a with
    | error e => rw [ha, except_bind_error] at h; cases h
    | ok res =>
      rw [ha, except_bind_ok] at h
      rcases ih _ _ h p hp with hin | ⟨rec, hrec, hcalc⟩
      · rcases alistSet_mem acc res.1 res.2 p hin with hin' | rfl
        · exact Or.inl hin'
        · exact Or.inr ⟨a, List.mem_cons_self a rest, ha⟩
      · exact Or.inr ⟨rec, List.mem_cons_of_mem a hrec, hcalc⟩

/-- C2: for every applicant evaluated by `Ruleset.calc`, the report's
overall `eligible` flag is the AND of the eligible flags of exactly the
root nodes not named "categories"; the final requirements map is the
per-root result map with the "categories" entry removed; the
`categories` sub-report lists, as `applicable`, exactly the names of the
eligible immediate subfindings of the "categories" root (empty when
there is no such root) and carries its full subfindings map as
`findings`; and every report `Ruleset.calc` returns is the output of
this per-applicant computation on some flattened record. -/
theorem ruleset_calc_report_shape (db : DB) (rs : Ruleset) (a : Dict) :
    ((Ruleset.calcApplicant db rs a).map (fun p => p.2.eligible)
      = (rs.values_from_json a).bind (fun sp =>
        (Node.calcList db sp.1 sp.2 rs.roots).bind (fun rres =>
        (pyInt (alistGet a "id")).map (fun _ =>
          (rres.filter (fun p => p.1 != "categories")).all
            (fun p => p.2.eligible)))))
    ∧ ((Ruleset.calcApplicant db rs a).map (fun p => p.2.requirements)
      = (rs.values_from_json a).bind (fun sp =>
        (Node.calcList db sp.1 sp.2 rs.roots).bind (fun rres =>
        (pyInt (alistGet a "id")).map (fun _ =>
          (rres.foldl (fun d p => alistSet d p.1 p.2) []).filter
            (fun p => p.1 != "categories")))))
    ∧ ((Ruleset.calcApplicant db rs a).map (fun p => p.2.categories)
      = (rs.values_from_json a).bind (fun sp =>
        (Node.calcList db sp.1 sp.2 rs.roots).bind (fun rres =>
        (pyInt (alistGet a "id")).map (fun _ =>
          match alistGet (rres.foldl (fun d p => alistSet d p.1 p.2) [])
              "categories" with
          | some c =>
            ⟨(c.subfindings.filter (fun q => q.2.eligible)).map (fun q => q.1),
              c.subfindings⟩
          | none => ⟨[], []⟩))))
    ∧ (∀ (app : Dict) (out : List (Int × Report)) (app' : Dict),
        Ruleset.calc db rs app = Except.ok (out, app') →
        ∀ p, p ∈ out → ∃ rec, Ruleset.calcApplicant db rs rec = Except.ok p) := by
  have hshape : ∀ {γ : Type} (f : Int × Report → γ),
      (Ruleset.calcApplicant db rs a).map f
        = (rs.values_from_json a).bind (fun sp =>
          (rootsLoop db sp.1 sp.2 rs.roots true []).bind (fun er =>
          (pyInt (alistGet a "id")).map (fun appId =>
            f (appId, ⟨er.1, (er.2).filter (fun p => p.1 != "categories"),
              ⟨(((match alistGet er.2 "categories" with
                  | some c => c.subfindings
                  | none => ([] : List (String × Finding)))).filter
                    (fun (p : String × Finding) => p.2.eligible)).map
                    (fun (p : String × Finding) => p.1),
                match alistGet er.2 "categories" with
                | some c => c.subfindings
                | none => []⟩⟩)))) := by
    intro γ f
    rw [Ruleset.calcApplicant]
    cases hv : rs.values_from_json a with
    | error e => rfl
    | ok sp =>
      rw [except_bind_ok, except_bindf_ok]
      cases he : rootsLoop db sp.1 sp.2 rs.roots true [] with
      | error e => rfl
      | ok er =>
        rw [except_bind_ok, except_bindf_ok]
        cases hi : pyInt (alistGet a "id") with
        | error e => rfl
        | ok appId => rfl
  refine ⟨?_, ?_, ?_, ?_⟩
  · rw [hshape]
    cases hv : rs.values_from_json a with
    | error e => rfl
    | ok sp =>
      rw [except_bindf_ok, except_bindf_ok, rootsLoop_eq]
      cases hc : Node.calcList db sp.1 sp.2 rs.roots with
      | error e => rfl
      | ok rres =>
        rw [except_map_ok, except_bindf_ok, except_bindf_ok]
        cases hi : pyInt (alistGet a "id") with
        | error e => rfl
        | ok appId =>
          rw [except_map_ok, except_map_ok]
          show Except.ok
            (rres.foldl
              (fun e p => if p.1 != "categories" then e && p.2.eligible else e)
              true) = _
          rw [foldl_elig_filter, Bool.true_and]
  · rw [hshape]
    cases hv : rs.values_from_json a with
    | error e => rfl
    | ok sp =>
      rw [except_bindf_ok, except_bindf_ok, rootsLoop_eq]
      cases hc : Node.calcList db sp.1 sp.2 rs.roots with
      | error e => rfl
      | ok rres => rfl
  · rw [hshape]
    cases hv : rs.values_from_json a with
    | error e => rfl
    | ok sp =>
      rw [except_bindf_ok, except_bindf_ok, rootsLoop_eq]
      cases hc : Node.calcList db sp.1 sp.2 rs.roots with
      | error e => rfl
      | ok rres =>
        rw [except_map_ok, except_bindf_ok, except_bindf_ok]
        cases hi : pyInt (alistGet a "id") with
        | error e => rfl
        | ok appId =>
          rw [except_map_ok, except_map_ok]
          cases halist : alistGet
              (rres.foldl (fun d p => alistSet d p.1 p.2) []) "categories" with
          | none => rfl
          | some c => rfl
  · intro app out app' h p hp
    rw [Ruleset.calc] at h
    cases hfl : Ruleset.flattened app with
    | error e => rw [hfl, except_bind_error] at h; cases h
    | ok fl =>
      rw [hfl, except_bind_ok] at h
      cases hloop : applicantsLoop db rs fl.1 [] with
      | error e => rw [hloop, except_bind_error] at h; cases h
      | ok overall =>
        rw [hloop, except_bind_ok] at h
        cases h
        rcases applicantsLoop_mem db rs fl.1 [] _ hloop p hp with
          hin | ⟨rec, _, hcalc⟩
        · cases hin
        · exact ⟨rec, hcalc⟩

theorem alistGet_cons_ne {κ α : Type} [BEq κ] (kv : κ × α)
    (rest : List (κ × α)) (k' : κ) (h : (kv.1 == k') = false) :
    alistGet (kv :: rest) k' = alistGet rest k' := by
  show ((kv :: rest).find? (fun kv => kv.1 == k')).map (fun kv => kv.2)
    = alistGet rest k'
  rw [List.find?_cons_of_neg _ (by simp [h])]
  rfl

theorem alistGet_cons_eq {κ α : Type} [BEq κ] (kv : κ × α)
    (rest : List (κ × α)) (k' : κ) (h : (kv.1 == k') = true) :
    alistGet (kv :: rest) k' = some kv.2 := by
  have hfind : (kv :: rest).find? (fun kv => kv.1 == k') = some kv := by
    show (match kv.1 == k' with
      | true => some kv
      | false => rest.find? (fun kv => kv.1 == k')) = some kv
    rw [h]
  show ((kv :: rest).find? (fun kv => kv.1 == k')).map (fun kv => kv.2)
    = some kv.2
  rw [hfind]
  rfl

theorem alistGet_remove_self {κ α : Type} [BEq κ] [LawfulBEq κ]
    (d : List (κ × α)) (k : κ) : alistGet (alistRemove d k) k = none := by
  induction d with
  | nil => rfl
  | cons kv rest ih =>
    rw [alistRemove, List.filter_cons]
    cases hk : (kv.1 == k) with
    | true =>
      simp only [hk, Bool.not_true, Bool.false_eq_true, if_false]
      exact ih
    | false =>
      simp only [hk, Bool.not_false, if_true]
      rw [show ((kv :: List.filter (fun kv => !kv.1 == k) rest) : List (κ × α))
          = kv :: alistRemove rest k from rfl]
      rw [alistGet_cons_ne _ _ _ hk]
      exact ih

theorem alistGet_remove_ne {κ α : Type} [BEq κ] [LawfulBEq κ]
    (d : List (κ × α)) (k k' : κ) (h : k' ≠ k) :
    alistGet (alistRemove d k) k' = alistGet d k' := by
  induction d with
  | nil => rfl
  | cons kv rest ih =>
    rw [alistRemove, List.filter_cons]
    cases hk : (kv.1 == k) with
    | true =>
      simp only [hk, Bool.not_true, Bool.false_eq_true, if_false]
      have hkv : (kv.1 == k') = false := by
        rw [beq_eq_false_iff_ne]
        intro he
        exact h (by rw [← he, eq_of_beq hk])
      rw [alistGet_cons_ne _ _ _ hkv]
      exact ih
    | false =>
      simp only [hk, Bool.not_false, if_true]
      rw [show ((kv :: List.filter (fun kv => !kv.1 == k) rest) : List (κ × α))
          = kv :: alistRemove rest k from rfl]
      cases hkv : (kv.1 == k') with
      | true => rw [alistGet_cons_eq _ _ _ hkv, alistGet_cons_eq _ _ _ hkv]
      | false =>
        rw [alistGet_cons_ne _ _ _ hkv, alistGet_cons_ne _ _ _ hkv]
        exact ih

theorem except_map_eq_ok {ε α β : Type} (g : α → β) (x : Except ε α) (y : β)
    (h : x.map g = Except.ok y) : ∃ z, x = Except.ok z ∧ y = g z := by
  cases x with
  | error e => cases h
  | ok z =>
    cases h
    exact ⟨z, rfl, rfl⟩

/-- C10: flattening mutates its input — `Ruleset.flattened` pops the
`applicants` key out of the payload it is given (its other top-level
keys are untouched), so flattening the left-over payload again raises a
`KeyError`; `Ruleset.calc` and `Ruleset.sql` hand back exactly that
popped payload as the caller's application object, and calling either of
them again on it raises the same `KeyError`. -/
theorem flattened_pops_applicants :
    (∀ (payload : Dict) (recs : List Dict) (payload' : Dict),
      Ruleset.flattened payload = Except.ok (recs, payload') →
      alistGet payload' "applicants" = none
      ∧ (∀ k, k ≠ "applicants" → alistGet payload' k = alistGet payload k)
      ∧ Ruleset.flattened payload' = Except.error "KeyError: applicants")
    ∧ (∀ (db : DB) (rs : Ruleset) (app : Dict),
      (Ruleset.calc db rs app).map (fun p => p.2)
        = (Ruleset.flattened app).bind (fun fl =>
            (applicantsLoop db rs fl.1 []).map (fun _ => fl.2)))
    ∧ (∀ (rs : Ruleset) (app : Dict),
      (Ruleset.sql rs app).map (fun p => p.2)
        = (Ruleset.flattened app).bind (fun fl =>
            (sqlApplicantLoop rs fl.1).map (fun _ => fl.2)))
    ∧ (∀ (db : DB) (rs : Ruleset) (payload : Dict) (recs : List Dict)
        (payload' : Dict),
      Ruleset.flattened payload = Except.ok (recs, payload') →
      Ruleset.calc db rs payload' = Except.error "KeyError: applicants"
      ∧ Ruleset.sql rs payload' = Except.error "KeyError: applicants") := by
  have hflat : ∀ (payload : Dict) (recs : List Dict) (payload' : Dict),
      Ruleset.flattened payload = Except.ok (recs, payload') →
      payload' = alistRemove payload "applicants" := by
    intro payload recs payload' h
    rw [Ruleset.flattened] at h
    cases halist : alistGet payload "applicants" with
    | none => rw [halist] at h; cases h
    | some v =>
      rw [halist] at h
      cases v with
      | arr items =>
        obtain ⟨z, -, heq⟩ := except_map_eq_ok _ _ _ h
        rw [Prod.mk.injEq] at heq
        exact heq.2
      | null => cases h
      | bool b => cases h
      | num n => cases h
      | str s => cases h
      | obj fields => cases h
  have hfail : ∀ (payload : Dict),
      alistGet payload "applicants" = none →
      Ruleset.flattened payload = Except.error "KeyError: applicants" := by
    intro payload hnone
    rw [Ruleset.flattened, hnone]
  have hpart1 : ∀ (payload : Dict) (recs : List Dict) (payload' : Dict),
      Ruleset.flattened payload = Except.ok (recs, payload') →
      alistGet payload' "applicants" = none
      ∧ (∀ k, k ≠ "applicants" → alistGet payload' k = alistGet payload k)
      ∧ Ruleset.flattened payload' = Except.error "KeyError: applicants" := by
    intro payload recs payload' h
    have hp' := hflat payload recs payload' h
    subst hp'
    refine ⟨alistGet_remove_self payload "applicants", ?_, ?_⟩
    · intro k hk
      exact alistGet_remove_ne payload "applicants" k hk
    · exact hfail _ (alistGet_remove_self payload "applicants")
  refine ⟨hpart1, ?_, ?_, ?_⟩
  · intro db rs app
    rw [Ruleset.calc]
    cases hfl : Ruleset.flattened app with
    | error e => rfl
    | ok fl =>
      rw [except_bind_ok, except_bindf_ok]
      cases hloop : applicantsLoop db rs fl.1 [] with
      | error e => rfl
      | ok overall => rfl
  · intro rs app
    rw [Ruleset.sql]
    cases hfl : Ruleset.flattened app with
    | error e => rfl
    | ok fl =>
      rw [except_bind_ok, except_bindf_ok]
      cases hloop : sqlApplicantLoop rs fl.1 with
      | error e => rfl
      | ok stmts => rfl
  · intro db rs payload recs payload' h
    have herr := (hpart1 payload recs payload' h).2.2
    constructor
    · rw [Ruleset.calc, herr]
      rfl
    · rw [Ruleset.sql, herr]
      rfl

/-- C8: when the record yields no source fragments at all (in
particular, an empty record yields none), `Ruleset.values_from_json`
raises the unpacking error instead of returning a source clause. -/
theorem values_from_json_empty_error (rs : Ruleset) (raw : Dict)
    (h : values_from_json_util raw rs.types = []) :
    rs.values_from_json raw = Except.error
        "ValueError: not enough values to unpack (expected 2, got 0)"
      ∧ values_from_json_util ([] : Dict) rs.types = [] := by
  constructor
  · rw [Ruleset.values_from_json, h]
  · rfl

/-! ### The diagnostics-only rendering -/

/-- A proper name holding one single-quote character. -/
def obrien : String := "O" ++ String.mk [squote] ++ "Brien"

/-- The same name as it appears naively wrapped in quote characters. -/
def quotedObrien : String := String.mk [squote] ++ obrien ++ String.mk [squote]

/-- C9 (code bug witnessed): `Rule.sql` inlines bound values by wrapping
each placeholder in single quotes and then `%`-substituting the raw
value text — no quoting function is applied.  A value holding a quote
character is dropped into the statement verbatim: the rendering contains
the malformed literal (quote, O, quote, Brien, quote) with the embedded
quote neither doubled nor backslash-escaped. -/
theorem rule_sql_naive_literal_substitution :
    (Rule.sql ⟨"r9", "select %s as name"⟩ "applicant as ( select 1 as id )"
        [JVal.str obrien]).map
      (fun s => (strContains s quotedObrien,
        strContains s (String.mk [squote, squote]),
        strContains s (String.mk ['\\'])))
      = Except.ok (true, false, false) := by
  set_option maxRecDepth 100000 in rfl

/-! ### Concrete evaluation scenario used by the witnesses -/

def rowA : Row := ⟨true, "a ok", none, none, none, none⟩

def rowB : Row := ⟨false, "b no", none, none, some "over income", none⟩

def rowC : Row := ⟨true, "cat yes", none, none, none, none⟩

def ruleA : Rule := ⟨"A", "RULEA"⟩

def ruleB : Rule := ⟨"B", "RULEB"⟩

def ruleC : Rule := ⟨"CAT1", "RULEC"⟩

def rootReq : Node := Node.mk "root" false [] [ruleA, ruleB]

def rootCat : Node := Node.mk "categories" false [] [ruleC]

/-- A backend oracle recognising each rule's body inside the rendered
statement and answering with that rule's fixed row. -/
def db0 : DB := fun sql _ =>
  if strContains sql "RULEA" then Except.ok rowA
  else if strContains sql "RULEB" then Except.ok rowB
  else if strContains sql "RULEC" then Except.ok rowC
  else Except.error "boom"

def rs0 : Ruleset :=
  ⟨[("household", "fallback_households")], [("id", "integer")],
    [rootReq, rootCat]⟩

def app0 : Dict :=
  [("applicants", JVal.arr [JVal.obj [("id", JVal.num 7)]]),
   ("note", JVal.str "x")]

def rec0 : Dict := [("note", JVal.str "x"), ("id", JVal.num 7)]

def pay0 : Dict := [("note", JVal.str "x")]

def resA : RuleResult := ⟨true, "a ok", none⟩

def resB : RuleResult :=
  ⟨false, "b no", some ⟨none, none, some "over income", none⟩⟩

def resC : RuleResult := ⟨true, "cat yes", none⟩

def nrReq : NodeResult :=
  NodeResult.mk true [Expl.ofRule "a ok", Expl.ofRule "b no"] []
    [("A", Finding.ofRule resA), ("B", Finding.ofRule resB)]

def nrCat : NodeResult :=
  NodeResult.mk true [Expl.ofRule "cat yes"] [] [("CAT1", Finding.ofRule resC)]

def rep0 : Report :=
  ⟨true, [("root", nrReq)], ⟨["CAT1"], [("CAT1", Finding.ofRule resC)]⟩⟩

def dbErr : DB := fun _ _ => Except.error "boom"

def dbOkA : DB := fun _ _ => Except.ok rowA

def dbB : DB := fun _ _ => Except.ok rowB

def rule4 : Rule := ⟨"R4", "CODE4"⟩

def tree4 : Node := Node.mk "n4" true [] [rule4]

def msg4 : String :=
  "Error executing rule R4\nboom\n\n in sql:\n\n" ++ ruleBaseSql "SRC" "CODE4"

def res4 : NodeResult :=
  NodeResult.mk true [Expl.ofRule "a ok"] [] [("R4", Finding.ofRule resA)]

def raw6 : Dict := [("id", JVal.num 7)]

/-! ### Witnesses -/

/-- Witness for C2: the orchestrator run on the sample application
produces applicant 7's report, and that report is the per-applicant
computation's output on some flattened record. -/
theorem ruleset_calc_report_shape_witness :
    Ruleset.calc db0 rs0 app0 = Except.ok ([(7, rep0)], pay0)
    ∧ (7, rep0) ∈ [(7, rep0)]
    ∧ ∃ rec, Ruleset.calcApplicant db0 rs0 rec = Except.ok (7, rep0) :=
  ⟨by set_option maxRecDepth 100000 in rfl, List.mem_singleton.mpr rfl,
    (ruleset_calc_report_shape db0 rs0 app0).2.2.2 app0 [(7, rep0)] pay0
      (by set_option maxRecDepth 100000 in rfl)
      (7, rep0) (List.mem_singleton.mpr rfl)⟩

/-- Witness for C4: a failing backend makes the rule and the whole node
error out with the constructed message, and a succeeding backend lets
every rule of the node return a result. -/
theorem rule_error_propagates_unmodified_witness :
    dbErr (ruleBaseSql "SRC" rule4.code) [] = Except.error "boom"
    ∧ Rule.calc dbErr rule4 "SRC" [] = Except.error msg4
    ∧ Node.calc dbErr "SRC" [] tree4 = Except.error msg4
    ∧ (∃ r, r ∈ rulesOf tree4 ∧ Rule.calc dbErr r "SRC" [] = Except.error msg4)
    ∧ Node.calc dbOkA "SRC" [] tree4 = Except.ok res4
    ∧ (∃ rr, Rule.calc dbOkA rule4 "SRC" [] = Except.ok rr) :=
  ⟨rfl,
    ((rule_error_propagates_unmodified dbErr "SRC" []).1 rule4 "boom" rfl).1,
    rfl,
    (rule_error_propagates_unmodified dbErr "SRC" []).2.1 tree4 msg4 rfl,
    rfl,
    (rule_error_propagates_unmodified dbOkA "SRC" []).2.2 tree4 res4 rfl rule4
      (List.mem_singleton.mpr rfl)⟩

/-- Witness for C6: with `null_sources` configuring a household fallback
and a record lacking a household field, exactly one fallback pair is
selected. -/
theorem null_sources_fallback_witness :
    ("household", "fallback_households") ∈ rs0.null_sources
    ∧ (rs0.null_sources.map Prod.fst).Nodup
    ∧ (alistGet raw6 "household").isNone = true
    ∧ (rs0.null_sources.filter
        (fun kv => (alistGet raw6 kv.1).isNone)).count
        ("household", "fallback_households") = 1 :=
  ⟨List.mem_singleton.mpr rfl, by decide, rfl,
    (null_sources_fallback rs0 raw6 "household" "fallback_households"
      (List.mem_singleton.mpr rfl) (by decide)).2.1 rfl⟩

/-- Witness for C7: a row with an empty end date but a non-empty
description keeps its limitation record intact. -/
theorem rule_calc_limitation_collapse_witness :
    dbB (ruleBaseSql "SRC" "CODEB") [] = Except.ok rowB
    ∧ ∃ res, Rule.calc dbB ⟨"B", "CODEB"⟩ "SRC" [] = Except.ok res
      ∧ res.eligible = rowB.eligible
      ∧ res.explanation = rowB.explanation
      ∧ (res.limitation = none ↔
          (pyFalsy rowB.end_date = true ∧ pyFalsy rowB.description = true))
      ∧ (¬(pyFalsy rowB.end_date = true ∧ pyFalsy rowB.description = true) →
          res.limitation = some ⟨rowB.end_date, rowB.normal, rowB.description,
            rowB.limitation_explanation⟩) :=
  ⟨rfl, rule_calc_limitation_collapse dbB ⟨"B", "CODEB"⟩ "SRC" [] rowB rfl⟩

/-- Witness for C8: the empty record yields no fragments and makes
source compilation raise the unpacking error. -/
theorem values_from_json_empty_error_witness :
    values_from_json_util ([] : Dict) rs0.types = []
    ∧ rs0.values_from_json [] = Except.error
        "ValueError: not enough values to unpack (expected 2, got 0)" :=
  ⟨rfl, (values_from_json_empty_error rs0 [] rfl).1⟩

/-- Witness for C10: flattening the sample application pops `applicants`
and leaves `note` alone; re-flattening, re-evaluating or re-rendering
the popped payload raises the `KeyError`. -/
theorem flattened_pops_applicants_witness :
    Ruleset.flattened app0 = Except.ok ([rec0], pay0)
    ∧ alistGet pay0 "applicants" = none
    ∧ alistGet pay0 "note" = alistGet app0 "note"
    ∧ Ruleset.flattened pay0 = Except.error "KeyError: applicants"
    ∧ Ruleset.calc db0 rs0 pay0 = Except.error "KeyError: applicants"
    ∧ Ruleset.sql rs0 pay0 = Except.error "KeyError: applicants" :=
  have h : Ruleset.flattened app0 = Except.ok ([rec0], pay0) := rfl
  ⟨h, (flattened_pops_applicants.1 app0 [rec0] pay0 h).1,
    (flattened_pops_applicants.1 app0 [rec0] pay0 h).2.1 "note" (by decide),
    (flattened_pops_applicants.1 app0 [rec0] pay0 h).2.2,
    (flattened_pops_applicants.2.2.2 db0 rs0 app0 [rec0] pay0 h).1,
    (flattened_pops_applicants.2.2.2 db0 rs0 app0 [rec0] pay0 h).2⟩

end WicRules
